import Mathlib

/-!
# go-telegram-crypto-bot: the quote-lookup pipeline of `main.go`

A shallow embedding of `main.go`: command parsing (`listenCommands`), the cached
lookup (`getData`), the fetch (`createRequest`), the decoder (`parseJsonToData`)
and the report formatter (`generateMessage`), together with models of the
library functions they call (`strings.ToUpper`, `strings.Split`, the
`patrickmn/go-cache` store, the `x/text` English printer).

Go strings are modelled as lists of runes (`Str`); chat text arrives through a
JSON decoder and is therefore valid UTF-8.
-/

set_option autoImplicit false
set_option maxRecDepth 65536

namespace CryptoBot

/-! ## Strings -/

/-- A Go string, as its sequence of runes. -/
abbrev Str := List Char

/-- A Go byte slice. -/
abbrev Bytes := List (Fin 256)

/-- A Go error value, as its message. -/
abbrev error := Str

deriving instance DecidableEq for Except

/-- The rune mapping `unicode.ToUpper`: the ASCII branch is the one of the Go
library (`'a'..'z'` lose 32), the branch for runes above `unicode.MaxASCII`
consults the library's case table, which is the parameter `tbl`. -/
def unicodeToUpper (tbl : Char → Char) (r : Char) : Char :=
  if r.toNat ≤ 0x7F then r.toUpper else tbl r

/-- The function `strings.ToUpper`: strings of ASCII runes take the fast path
(returned as they are when they hold no lower-case letter, otherwise mapped
letter by letter), all others go through `strings.Map(unicode.ToUpper, s)`. -/
def ToUpper (tbl : Char → Char) (s : Str) : Str :=
  if s.all (fun c => decide (c.toNat < 0x80)) then
    if s.any (fun c => decide ('a' ≤ c ∧ c ≤ 'z')) then s.map Char.toUpper else s
  else s.map (unicodeToUpper tbl)

/-- The function `strings.Split(s, sep)` for a separator of one rune: the
pieces of `s` between the occurrences of `sep`, one more than there are
occurrences. -/
def Split : Str → Char → List Str
  | [], _ => [[]]
  | c :: cs, sep =>
    if c = sep then [] :: Split cs sep
    else
      match Split cs sep with
      | [] => [[c]]
      | t :: ts => (c :: t) :: ts

/-! ## Data model -/

/-- A finite `float64`, as the exact dyadic number `± mant * 2 ^ exp`. The
values a JSON decoder produces are finite. -/
structure float64 where
  neg : Bool
  mant : Nat
  exp : Int
  deriving DecidableEq, Repr

/-- The zero value of `float64`. -/
def float64.zero : float64 := ⟨false, 0, 0⟩

/-- A `time.Time`: seconds since the Unix epoch, nanoseconds within the second
and the offset of its zone east of UTC, in seconds. -/
structure Time where
  unix : Int
  nsec : Nat
  offset : Int
  deriving DecidableEq, Repr

/-- The zero value of `time.Time`: January 1 of year 1, 00:00:00 UTC. -/
def Time.zero : Time := ⟨-62135596800, 0, 0⟩

/-- The struct `price`. -/
structure price where
  Price : float64
  Volume : float64
  ChangeHour : float64
  ChangeDay : float64
  MarketCap : float64
  LastUpdated : Time
  deriving DecidableEq, Repr

/-- The zero value of `price`. -/
def price.zero : price :=
  ⟨float64.zero, float64.zero, float64.zero, float64.zero, float64.zero, Time.zero⟩

/-- The struct `data`; the Go map `Quote` is an association list. -/
structure data where
  Name : Str
  Symbol : Str
  MaxSupply : float64
  CirculatingSupply : float64
  TotalSupply : float64
  Quote : List (Str × price)
  deriving DecidableEq, Repr

/-- The zero value of `data` (its map is nil). -/
def data.zero : data := ⟨[], [], float64.zero, float64.zero, float64.zero, []⟩

/-- The struct `status`. -/
structure status where
  ErrorCode : Int
  ErrorMessage : Int
  deriving DecidableEq, Repr

/-- The struct `jsonResult`. -/
structure jsonResult where
  Status : status
  Data : List (Str × data)
  deriving DecidableEq, Repr

/-- The struct `cryptoData`. -/
structure cryptoData where
  Data : data
  Price : price
  Convert : Str
  deriving DecidableEq, Repr

/-- Indexing a Go map, `m[k]`: the value stored under `k`, or the zero value of
the value type when the key is missing. -/
def mapIndex {V : Type} (zero : V) (m : List (Str × V)) (k : Str) : V :=
  match m.lookup k with
  | some v => v
  | none => zero

/-! ## The printer `message.NewPrinter(language.English)` -/

/-- The quotient `n / d` rounded to the nearest integer, halves to the even
neighbour, as `strconv` rounds a float to a given number of decimals. -/
def roundHalfEven (n d : Nat) : Nat :=
  if d < 2 * (n % d) ∨ (2 * (n % d) = d ∧ n / d % 2 = 1) then n / d + 1 else n / d

/-- The decimal digit of `n % 10`. -/
def digitChar (n : Nat) : Char := Char.ofNat (48 + n % 10)

/-- The last `w` decimal digits of `n`, most significant first, zero padded. -/
def fixedDigits : Nat → Nat → Str
  | 0, _ => []
  | w + 1, n => fixedDigits w (n / 10) ++ [digitChar n]

/-- The decimal digits of `n` without leading zeros (one digit for zero);
`fuel` bounds the number of divisions and `n` itself is always enough. -/
def intDigits : Nat → Nat → Str
  | 0, n => [digitChar n]
  | fuel + 1, n => if n < 10 then [digitChar n] else intDigits fuel (n / 10) ++ [digitChar n]

/-- Digit grouping of the English number pattern `#,##0.###`: a `,` follows a
digit when the number of integer digits still to come is a positive multiple of
three. -/
def groupDigits : Str → Str
  | [] => []
  | c :: cs =>
    if cs.length % 3 = 0 ∧ cs ≠ [] then c :: ',' :: groupDigits cs else c :: groupDigits cs

/-- The verb `%.{prec}f` of the printer of `golang.org/x/text/message` for
`language.English` on a finite float: the value rounded to `prec` decimals, a
`-` for a negative value, the integer digits grouped in threes, and `.` with
exactly `prec` fraction digits when `prec > 0`. -/
def fmtFloat (prec : Nat) (x : float64) : Str :=
  let n := roundHalfEven (x.mant * 2 ^ x.exp.toNat * 10 ^ prec) (2 ^ (-x.exp).toNat)
  (if x.neg = true ∧ x.mant ≠ 0 then ['-'] else [])
    ++ groupDigits (intDigits (n / 10 ^ prec) (n / 10 ^ prec))
    ++ (if prec = 0 then [] else '.' :: fixedDigits prec (n % 10 ^ prec))

/-- The call `t.Format("15:04:05")`: hour, minute and second of the wall clock
of `t` in its own zone, two digits each. -/
def Time.Format (t : Time) : Str :=
  let s := ((t.unix + t.offset) % 86400).toNat
  fixedDigits 2 (s / 3600) ++ ':' :: fixedDigits 2 (s / 60 % 60) ++ ':' :: fixedDigits 2 (s % 60)

/-- An operand of a formatting call. -/
inductive Arg where
  | s (v : Str)
  | f (v : float64)
  deriving DecidableEq, Repr

/-- What `printer.Fprintf(&sb, format, args...)` appends to the builder, for
the verbs the program uses: `%s` and `%v` on a string, `%.Nf` with a one-digit
precision on a float, and `%%`. -/
def Sprintf : Str → List Arg → Str
  | [], _ => []
  | '%' :: '%' :: fmt, args => '%' :: Sprintf fmt args
  | '%' :: 's' :: fmt, Arg.s v :: args => v ++ Sprintf fmt args
  | '%' :: 'v' :: fmt, Arg.s v :: args => v ++ Sprintf fmt args
  | '%' :: '.' :: p :: 'f' :: fmt, Arg.f v :: args =>
    fmtFloat (p.toNat - 48) v ++ Sprintf fmt args
  | c :: fmt, args => c :: Sprintf fmt args

/-- The function `generateMessage`. -/
def generateMessage (data : cryptoData) : Str :=
  let sb : Str := []
  let sb := sb ++ Sprintf "<b>%s - %s</b>\n".toList [.s data.Data.Symbol, .s data.Convert]
  let sb := sb ++ Sprintf "\n".toList []
  let sb := sb ++ Sprintf "<b>Max Supply: </b><i>%.0f</i> %s\n".toList
    [.f data.Data.MaxSupply, .s data.Data.Symbol]
  let sb := sb ++ Sprintf "<b>Circulating Supply: </b><i>%.0f</i> %s\n".toList
    [.f data.Data.CirculatingSupply, .s data.Data.Symbol]
  let sb := sb ++ Sprintf "<b>Total Supply: </b><i>%.0f</i> %s\n".toList
    [.f data.Data.TotalSupply, .s data.Data.Symbol]
  let sb := sb ++ Sprintf "\n".toList []
  let sb := sb ++ Sprintf "<b>Price: </b><i>%.8f</i> %s\n".toList
    [.f data.Price.Price, .s data.Convert]
  let sb := sb ++ Sprintf "<b>Volume: </b><i>%.3f</i> %s\n".toList
    [.f data.Price.Volume, .s data.Convert]
  let sb := sb ++ Sprintf "<b>1 Hour Change Percent: </b><i>%.2f%%</i>\n".toList
    [.f data.Price.ChangeHour]
  let sb := sb ++ Sprintf "<b>Daily Change Percent: </b><i>%.2f%%</i>\n".toList
    [.f data.Price.ChangeDay]
  let sb := sb ++ Sprintf "<b>Market Cap: </b><i>%.3f</i> %s\n".toList
    [.f data.Price.MarketCap, .s data.Convert]
  let sb := sb ++ Sprintf "<b>Data Last Updated: </b><i>%v</i>\n".toList
    [.s data.Price.LastUpdated.Format]
  sb

/-! ## The cache `patrickmn/go-cache` -/

/-- The duration `time.Second`, in nanoseconds. -/
def Second : Int := 1000000000

/-- The duration `time.Minute`, in nanoseconds. -/
def Minute : Int := 60 * Second

/-- The constant `cache.DefaultExpiration`. -/
def DefaultExpiration : Int := 0

/-- A cache item: the stored object and its expiration in Unix nanoseconds,
where an expiration that is not positive means the item never expires. -/
structure Item where
  Object : cryptoData
  Expiration : Int
  deriving DecidableEq, Repr

/-- The cache: its default time to live, the interval of its janitor and its
items, an association list with one entry per key. -/
structure Cache where
  defaultExpiration : Int
  cleanupInterval : Int
  items : List (Str × Item)
  deriving DecidableEq, Repr

/-- The constructor `cache.New`. -/
def Cache.New (defaultExpiration cleanupInterval : Int) : Cache :=
  ⟨defaultExpiration, cleanupInterval, []⟩

/-- Whether an item is expired at time `now`. -/
def Item.Expired (it : Item) (now : Int) : Bool :=
  decide (0 < it.Expiration) && decide (it.Expiration < now)

/-- The method `Get` at time `now`: the object under `k`, unless the key is
missing or the item is expired. -/
def Cache.Get (c : Cache) (k : Str) (now : Int) : Option cryptoData :=
  match c.items.lookup k with
  | none => none
  | some it => if it.Expired now then none else some it.Object

/-- The method `set` at time `now`: a duration equal to `DefaultExpiration`
stands for the default of the cache, a positive duration gives the expiration
`now + d`, and the item replaces any item under the same key. -/
def Cache.set (c : Cache) (k : Str) (x : cryptoData) (d : Int) (now : Int) : Cache :=
  let d := if d = DefaultExpiration then c.defaultExpiration else d
  let e := if 0 < d then now + d else 0
  { c with items := (k, ⟨x, e⟩) :: c.items.filter (fun p => !(p.1 == k)) }

/-- The method `Add` at time `now`: stores the item only when `Get` finds
nothing under the key; otherwise it reports an error, which `getData` drops,
and leaves the cache as it is. -/
def Cache.Add (c : Cache) (k : Str) (x : cryptoData) (d : Int) (now : Int) : Cache :=
  match c.Get k now with
  | some _ => c
  | none => c.set k x d now

/-- The method `DeleteExpired`, which the janitor runs: drops the items that
are expired at time `now`. -/
def Cache.DeleteExpired (c : Cache) (now : Int) : Cache :=
  { c with items := c.items.filter (fun p => !(p.2.Expired now)) }

/-! ## The environment and the state of the program -/

/-- An HTTP response: its status code and the bytes `ioutil.ReadAll` reads
from its body. -/
structure Response where
  StatusCode : Nat
  Body : Bytes
  deriving DecidableEq, Repr

/-- The outcome of `client.Do`: the nanoseconds the round trip took and either
a transport error or the response. -/
structure RoundTrip where
  elapsed : Nat
  result : Except error Response

/-- What the program does not decide: the case table of `unicode.ToUpper` for
the runes above ASCII, the answer of the network to the request for a symbol
and a currency sent at a given time, and the JSON decoder `json.Unmarshal` into
a `jsonResult`. -/
structure Env where
  upper : Char → Char
  Do : Int → Str → Str → RoundTrip
  Unmarshal : Bytes → Except error jsonResult

/-- The struct `tgbotapi.MessageConfig`, the fields the program sets. -/
structure MessageConfig where
  ChatID : Int
  Text : Str
  ParseMode : Str
  deriving DecidableEq, Repr

/-- The observable steps of a run, in order. -/
inductive Event where
  | getData (symbol convert : Str)
  | createRequest (symbol convert : Str)
  | Send (msg : MessageConfig)
  deriving DecidableEq, Repr

/-- The state of the program: the clock in Unix nanoseconds, the global cache
`cac`, and the trace of the calls made so far, oldest first. -/
structure World where
  now : Int
  cac : Cache
  trace : List Event
  deriving DecidableEq, Repr

/-- The state `main` hands to `listenCommands`: the cache made by
`cache.New(30*time.Second, 10*time.Minute)` and an empty trace. -/
def World.main (now : Int) : World :=
  ⟨now, Cache.New (30 * Second) (10 * Minute), []⟩

/-! ## The pipeline -/

/-- The variable `botWrongCommandMessage`. -/
def botWrongCommandMessage : Str :=
  "You have entered wrong commmand. Please enter command like BTC-USD.".toList

/-- The function `createRequest`. Building the request from the constant
method and URL cannot fail; the call is traced, the clock advances by the time
of the round trip, a transport error is returned as it is and a response gives
its body, whatever its status code (the error of `ReadAll` is dropped). -/
def createRequest (env : Env) (w : World) (symbol convert : Str) :
    Except error Bytes × World :=
  let rt := env.Do w.now symbol convert
  let w1 : World :=
    { w with now := w.now + rt.elapsed, trace := w.trace ++ [Event.createRequest symbol convert] }
  match rt.result with
  | .error err => (.error err, w1)
  | .ok resp => (.ok resp.Body, w1)

/-- The function `parseJsonToData`. -/
def parseJsonToData (env : Env) (jsonData : Bytes) (symbol convert : Str) :
    Except error cryptoData :=
  match env.Unmarshal jsonData with
  | .error err => .error err
  | .ok result =>
    let _data := mapIndex data.zero result.Data symbol
    let _price := mapIndex price.zero _data.Quote convert
    .ok ⟨_data, _price, convert⟩

/-- The function `getData`. -/
def getData (env : Env) (w : World) (symbol convert : Str) :
    Except error cryptoData × World :=
  match w.cac.Get (symbol ++ convert) w.now with
  | some cacheData => (.ok cacheData, w)
  | none =>
    match createRequest env w symbol convert with
    | (.error err, w1) => (.error err, w1)
    | (.ok jsonData, w1) =>
      match parseJsonToData env jsonData symbol convert with
      | .error err => (.error err, w1)
      | .ok data =>
        (.ok data, { w1 with cac := w1.cac.Add (symbol ++ convert) data DefaultExpiration w1.now })

/-- The struct `tgbotapi.Message`, the fields the program reads. -/
structure Message where
  ChatID : Int
  Text : Str
  deriving DecidableEq, Repr

/-- The struct `tgbotapi.Update`. -/
structure Update where
  Message : Option Message
  deriving DecidableEq, Repr

/-- The call `bot.Send(msg)`, traced. -/
def Send (w : World) (msg : MessageConfig) : World :=
  { w with trace := w.trace ++ [Event.Send msg] }

/-- One turn of the loop of `listenCommands` on one update: an update without a
message is skipped; otherwise the upper-cased text is split on `-`, a command
that is not two tokens long is answered with `botWrongCommandMessage`, and the
two tokens go to `getData` (the call is traced where it is made), whose error
is answered with the same message and whose result is sent as the report. -/
def listenCommandsStep (env : Env) (w : World) (update : Update) : World :=
  match update.Message with
  | none => w
  | some m =>
    let command := Split (ToUpper env.upper m.Text) '-'
    let msg : MessageConfig := ⟨m.ChatID, [], []⟩
    if command.length ≠ 2 then Send w { msg with Text := botWrongCommandMessage }
    else
      let symbol := command.getD 0 []
      let convert := command.getD 1 []
      match getData env { w with trace := w.trace ++ [Event.getData symbol convert] }
          symbol convert with
      | (.error _, w1) => Send w1 { msg with Text := botWrongCommandMessage }
      | (.ok result, w1) =>
        Send w1 { msg with ParseMode := "html".toList, Text := generateMessage result }

/-- The function `listenCommands` on the updates the channel delivers. -/
def listenCommands (env : Env) (updates : List Update) (w : World) : World :=
  updates.foldl (listenCommandsStep env) w

/-- What can happen between two lookups: time passes, the janitor of the cache
sweeps, or the loop handles another update. -/
inductive Action where
  | tick (d : Nat)
  | janitor
  | update (u : Update)
  deriving DecidableEq, Repr

/-- The effect of one action. -/
def World.act (env : Env) (w : World) : Action → World
  | .tick d => { w with now := w.now + d }
  | .janitor => { w with cac := w.cac.DeleteExpired w.now }
  | .update u => listenCommandsStep env w u

/-- The effect of a sequence of actions. -/
def World.run (env : Env) (w : World) (acts : List Action) : World :=
  acts.foldl (World.act env) w

/-- The text of a report with its markup removed: everything from a `<` to the
next `>` is dropped. The flag tells whether the scan is inside a tag. -/
def stripMarkup : Bool → Str → Str
  | _, [] => []
  | inTag, c :: cs =>
    if c = '<' then stripMarkup true cs
    else if c = '>' then stripMarkup false cs
    else if inTag then stripMarkup true cs
    else c :: stripMarkup false cs

/-- The number that a string of decimal digits stands for. -/
def digitsValue (ds : Str) : Nat :=
  ds.foldl (fun acc c => 10 * acc + (c.toNat - 48)) 0

/-! ## A concrete environment -/

/-- A quote for BTC in USD with the price 65000.12345678 (as a `float64`,
`4466774471725321 / 2 ^ 36`). -/
def demoQuote : cryptoData :=
  ⟨⟨"Bitcoin".toList, "BTC".toList, ⟨false, 21000000, 0⟩, ⟨false, 19000000, 0⟩,
      ⟨false, 19000000, 0⟩, [("USD".toList, ⟨⟨false, 4466774471725321, -36⟩,
        ⟨false, 123456789, -3⟩, ⟨true, 5, -2⟩, ⟨false, 1, -1⟩, ⟨false, 1234567890123, 0⟩,
        ⟨1700000000, 0, 3600⟩⟩)]⟩,
    ⟨⟨false, 4466774471725321, -36⟩, ⟨false, 123456789, -3⟩, ⟨true, 5, -2⟩, ⟨false, 1, -1⟩,
      ⟨false, 1234567890123, 0⟩, ⟨1700000000, 0, 3600⟩⟩,
    "USD".toList⟩

/-- A decoded payload that holds the asset of `demoQuote` and nothing else. -/
def demoResult : jsonResult := ⟨⟨0, 0⟩, [("BTC".toList, demoQuote.Data)]⟩

/-- An environment for concrete runs: runes above ASCII are their own upper
case; a request for BTC is answered after 5 ns with status 200 and the body
`[1]`, a request for ETH after 5 ns with status 500 and the body `[2]`, any
other request fails in the transport after 7 ns; the body `[1]` decodes to
`demoResult` and no other body decodes. -/
def demoEnv : Env where
  upper := id
  Do := fun _ symbol _ =>
    if symbol = "BTC".toList then ⟨5, .ok ⟨200, [1]⟩⟩
    else if symbol = "ETH".toList then ⟨5, .ok ⟨500, [2]⟩⟩
    else ⟨7, .error "dial tcp: connection refused".toList⟩
  Unmarshal := fun b =>
    if b = [1] then .ok demoResult else .error "invalid character".toList

/-! ## Lemmas on upper-casing and splitting -/

theorem toUpper_eq_dash (c : Char) : c.toUpper = '-' ↔ c = '-' := by
  constructor
  · intro h
    by_cases hr : c.toNat ≥ 97 ∧ c.toNat ≤ 122
    · exfalso
      have hc : c = Char.ofNat c.toNat := (Char.ofNat_toNat c).symm
      obtain ⟨h1, h2⟩ := hr
      generalize c.toNat = n at hc h1 h2
      subst hc
      interval_cases n <;> revert h <;> decide
    · have : c.toUpper = c := by
        unfold Char.toUpper
        simp only [hr, if_false]
      rw [this] at h
      exact h
  · rintro rfl
    decide

theorem unicodeToUpper_eq_dash (tbl : Char → Char)
    (hup : ∀ c : Char, 0x7F < c.toNat → tbl c ≠ '-') (c : Char) :
    unicodeToUpper tbl c = '-' ↔ c = '-' := by
  unfold unicodeToUpper
  by_cases h : c.toNat ≤ 0x7F
  · simp only [h, if_true]
    exact toUpper_eq_dash c
  · simp only [h, if_false]
    constructor
    · intro h1
      exact absurd h1 (hup c (by omega))
    · rintro rfl
      exact absurd (by decide : ('-' : Char).toNat ≤ 0x7F) h

theorem toUpper_of_not_lower (c : Char) (h : ¬ ('a' ≤ c ∧ c ≤ 'z')) : c.toUpper = c := by
  unfold Char.toUpper
  have : ¬ (c.toNat ≥ 97 ∧ c.toNat ≤ 122) := by
    intro hr
    apply h
    constructor
    · show (97 : Nat) ≤ c.val.toNat
      exact hr.1
    · show c.val.toNat ≤ (122 : Nat)
      exact hr.2
  simp only [this, if_false]

/-- Both paths of `strings.ToUpper` map every rune through `unicode.ToUpper`. -/
theorem ToUpper_eq_map (tbl : Char → Char) (s : Str) :
    ToUpper tbl s = s.map (unicodeToUpper tbl) := by
  unfold ToUpper
  split_ifs with h1 h2
  · apply List.map_congr_left
    intro c hc
    have := List.all_eq_true.mp h1 c hc
    simp only [decide_eq_true_eq] at this
    unfold unicodeToUpper
    rw [if_pos (by omega)]
  · have h3 : s.map (unicodeToUpper tbl) = s.map id := by
      apply List.map_congr_left
      intro c hc
      have hA := List.all_eq_true.mp h1 c hc
      simp only [decide_eq_true_eq] at hA
      have hL : ¬ ('a' ≤ c ∧ c ≤ 'z') := by
        intro hl
        apply h2
        exact List.any_eq_true.mpr ⟨c, hc, by simpa using hl⟩
      unfold unicodeToUpper
      rw [if_pos (by omega), toUpper_of_not_lower c hL]
      rfl
    rw [h3, List.map_id]
  · rfl

theorem ToUpper_append (tbl : Char → Char) (s t : Str) :
    ToUpper tbl (s ++ t) = ToUpper tbl s ++ ToUpper tbl t := by
  simp only [ToUpper_eq_map, List.map_append]

theorem ToUpper_count_dash (tbl : Char → Char)
    (hup : ∀ c : Char, 0x7F < c.toNat → tbl c ≠ '-') (s : Str) :
    (ToUpper tbl s).count '-' = s.count '-' := by
  rw [ToUpper_eq_map]
  induction s with
  | nil => rfl
  | cons c cs ih =>
    rw [List.map_cons, List.count_cons, List.count_cons, ih]
    have := unicodeToUpper_eq_dash tbl hup c
    by_cases hc : c = '-'
    · have h1 := this.mpr hc
      rw [h1, hc]
    · have h2 : ¬ unicodeToUpper tbl c = '-' := fun h => hc (this.mp h)
      simp [hc, h2]

theorem ToUpper_dash_not_mem (tbl : Char → Char)
    (hup : ∀ c : Char, 0x7F < c.toNat → tbl c ≠ '-') (s : Str) (h : '-' ∉ s) :
    '-' ∉ ToUpper tbl s := by
  rw [← List.count_eq_zero, ToUpper_count_dash tbl hup, List.count_eq_zero]
  exact h

theorem Split_ne_nil (s : Str) (sep : Char) : Split s sep ≠ [] := by
  induction s with
  | nil => simp [Split]
  | cons c cs ih =>
    unfold Split
    split_ifs
    · simp
    · split <;> simp

theorem Split_length (s : Str) (sep : Char) : (Split s sep).length = s.count sep + 1 := by
  induction s with
  | nil => simp [Split]
  | cons c cs ih =>
    unfold Split
    split_ifs with h
    · subst h
      simp [ih]
    · have hne : ¬ (c == sep) = true := by simpa using h
      rw [List.count_cons, if_neg hne, ← ih]
      split
      · next h0 => exact absurd h0 (Split_ne_nil cs sep)
      · next t ts h0 => simp [h0]

theorem Split_of_not_mem (s : Str) (sep : Char) (h : sep ∉ s) : Split s sep = [s] := by
  induction s with
  | nil => simp [Split]
  | cons c cs ih =>
    have hc : ¬ c = sep := fun e => h (by simp [e])
    have hcs : sep ∉ cs := fun e => h (by simp [e])
    unfold Split
    rw [if_neg hc, ih hcs]

theorem Split_append_sep (s t : Str) (sep : Char) (h : sep ∉ s) :
    Split (s ++ sep :: t) sep = s :: Split t sep := by
  induction s with
  | nil => simp [Split]
  | cons c cs ih =>
    have hc : ¬ c = sep := fun e => h (by simp [e])
    have hcs : sep ∉ cs := fun e => h (by simp [e])
    rw [List.cons_append]
    conv_lhs => unfold Split
    rw [if_neg hc, ih hcs]

/-! ## Lemmas on the pipeline -/

theorem demoEnv_upper (c : Char) (hc : 0x7F < c.toNat) : demoEnv.upper c ≠ '-' := by
  intro h
  have h1 : c = '-' := h
  subst h1
  revert hc
  decide

theorem createRequest_trace (env : Env) (w : World) (symbol convert : Str) :
    (createRequest env w symbol convert).2.trace
      = w.trace ++ [Event.createRequest symbol convert] := by
  simp only [createRequest]
  split <;> rfl

theorem createRequest_cac (env : Env) (w : World) (symbol convert : Str) :
    (createRequest env w symbol convert).2.cac = w.cac := by
  simp only [createRequest]
  split <;> rfl

theorem createRequest_now (env : Env) (w : World) (symbol convert : Str) :
    (createRequest env w symbol convert).2.now
      = w.now + (env.Do w.now symbol convert).elapsed := by
  simp only [createRequest]
  split <;> rfl

theorem getData_trace_extends (env : Env) (w : World) (symbol convert : Str) :
    w.trace <+: (getData env w symbol convert).2.trace := by
  have hc := createRequest_trace env w symbol convert
  simp only [getData]
  split
  · exact List.prefix_refl _
  · split
    · next hr =>
      rw [hr] at hc
      exact ⟨_, hc.symm⟩
    · next hr =>
      rw [hr] at hc
      split
      · exact ⟨_, hc.symm⟩
      · exact ⟨_, hc.symm⟩

theorem listenCommandsStep_reject (env : Env) (w : World) (chat : Int) (text : Str)
    (h : (Split (ToUpper env.upper text) '-').length ≠ 2) :
    listenCommandsStep env w ⟨some ⟨chat, text⟩⟩
      = Send w ⟨chat, botWrongCommandMessage, []⟩ := by
  simp only [listenCommandsStep]
  rw [if_pos h]

theorem listenCommandsStep_accept (env : Env) (w : World) (chat : Int) (text symbol convert : Str)
    (h : Split (ToUpper env.upper text) '-' = [symbol, convert]) :
    w.trace ++ [Event.getData symbol convert]
      <+: (listenCommandsStep env w ⟨some ⟨chat, text⟩⟩).trace := by
  simp only [listenCommandsStep, h]
  rw [if_neg (by simp)]
  have hp := getData_trace_extends env
    { w with trace := w.trace ++ [Event.getData symbol convert] } symbol convert
  simp only [List.getD_cons_zero, List.getD_cons_succ]
  rcases hr : getData env { w with trace := w.trace ++ [Event.getData symbol convert] }
    symbol convert with ⟨r, w1⟩
  rw [hr] at hp
  cases r with
  | error err => exact hp.trans (List.prefix_append _ _)
  | ok q => exact hp.trans (List.prefix_append _ _)

/-! ## Command parsing -/

/-- C1: for a text `A-B` with `A` and `B` non-empty and free of `-`,
upper-casing the whole text and splitting it gives the same tokens as splitting
first and upper-casing each token, namely the non-empty pair
`[ToUpper A, ToUpper B]`, and the loop calls `getData` with that pair. The case
table of the library enters through the fact that no rune above ASCII has `-`
as its upper case. -/
theorem listenCommands_parses_pair (env : Env) (w : World) (chat : Int) (A B : Str)
    (hA : A ≠ []) (hB : B ≠ []) (hAd : '-' ∉ A) (hBd : '-' ∉ B)
    (hup : ∀ c : Char, 0x7F < c.toNat → env.upper c ≠ '-') :
    Split (ToUpper env.upper (A ++ '-' :: B)) '-'
        = (Split (A ++ '-' :: B) '-').map (ToUpper env.upper)
      ∧ Split (ToUpper env.upper (A ++ '-' :: B)) '-'
        = [ToUpper env.upper A, ToUpper env.upper B]
      ∧ ToUpper env.upper A ≠ [] ∧ ToUpper env.upper B ≠ []
      ∧ w.trace ++ [Event.getData (ToUpper env.upper A) (ToUpper env.upper B)]
          <+: (listenCommandsStep env w ⟨some ⟨chat, A ++ '-' :: B⟩⟩).trace := by
  have hdash : ToUpper env.upper ['-'] = ['-'] := by
    rw [ToUpper_eq_map]
    simp only [List.map_cons, List.map_nil]
    rw [(unicodeToUpper_eq_dash env.upper hup '-').mpr rfl]
  have hsplit : Split (ToUpper env.upper (A ++ '-' :: B)) '-'
      = [ToUpper env.upper A, ToUpper env.upper B] := by
    have : A ++ '-' :: B = A ++ (['-'] ++ B) := rfl
    rw [this, ToUpper_append, ToUpper_append, hdash]
    show Split (ToUpper env.upper A ++ '-' :: ToUpper env.upper B) '-' = _
    rw [Split_append_sep _ _ _ (ToUpper_dash_not_mem env.upper hup A hAd),
      Split_of_not_mem _ _ (ToUpper_dash_not_mem env.upper hup B hBd)]
  refine ⟨?_, hsplit, ?_, ?_, listenCommandsStep_accept env w chat _ _ _ hsplit⟩
  · rw [hsplit, Split_append_sep _ _ _ hAd, Split_of_not_mem _ _ hBd]
    rfl
  · rw [ToUpper_eq_map]
    simpa using hA
  · rw [ToUpper_eq_map]
    simpa using hB

/-- The text `btc-usd` is parsed into the command `BTC`, `USD`. -/
theorem listenCommands_parses_pair_witness :
    Split (ToUpper demoEnv.upper ("btc".toList ++ '-' :: "usd".toList)) '-'
        = [ToUpper demoEnv.upper "btc".toList, ToUpper demoEnv.upper "usd".toList]
      ∧ ToUpper demoEnv.upper "btc".toList = "BTC".toList
      ∧ ToUpper demoEnv.upper "usd".toList = "USD".toList :=
  ⟨(listenCommands_parses_pair demoEnv (World.main 0) 1 "btc".toList "usd".toList
      (by decide) (by decide) (by decide) (by decide) demoEnv_upper).2.1, by decide, by decide⟩

/-- C2: a text with no `-` or with two or more is answered with the
wrong-command message and nothing else happens: the state after the turn is the
state before it with that one `Send` added to the trace, so `getData` and
`createRequest` are not called and the cache is unchanged. -/
theorem listenCommands_rejects_separator_count (env : Env) (w : World) (chat : Int)
    (text : Str) (hcount : text.count '-' = 0 ∨ 2 ≤ text.count '-')
    (hup : ∀ c : Char, 0x7F < c.toNat → env.upper c ≠ '-') :
    listenCommandsStep env w ⟨some ⟨chat, text⟩⟩ = Send w ⟨chat, botWrongCommandMessage, []⟩
      ∧ (listenCommandsStep env w ⟨some ⟨chat, text⟩⟩).trace
          = w.trace ++ [Event.Send ⟨chat, botWrongCommandMessage, []⟩]
      ∧ (listenCommandsStep env w ⟨some ⟨chat, text⟩⟩).cac = w.cac := by
  have hlen : (Split (ToUpper env.upper text) '-').length ≠ 2 := by
    rw [Split_length, ToUpper_count_dash env.upper hup]
    omega
  rw [listenCommandsStep_reject env w chat text hlen]
  exact ⟨rfl, rfl, rfl⟩

/-- The text `BTCUSD` is rejected without a lookup. -/
theorem listenCommands_rejects_separator_count_witness :
    (listenCommandsStep demoEnv (World.main 0) ⟨some ⟨1, "BTCUSD".toList⟩⟩).trace
        = (World.main 0).trace ++ [Event.Send ⟨1, botWrongCommandMessage, []⟩]
      ∧ (listenCommandsStep demoEnv (World.main 0) ⟨some ⟨1, "BTCUSD".toList⟩⟩).cac
        = (World.main 0).cac :=
  (listenCommands_rejects_separator_count demoEnv (World.main 0) 1 "BTCUSD".toList
    (Or.inl (by decide)) demoEnv_upper).2

/-- C3, as stated, fails: the text `-USD` does not split into two non-empty
tokens, its first token is empty, and yet `getData` is called, with the empty
symbol, and a request is sent. -/
theorem listenCommands_empty_symbol_accepted :
    Split (ToUpper demoEnv.upper "-USD".toList) '-' = [[], "USD".toList]
      ∧ (listenCommandsStep demoEnv (World.main 0) ⟨some ⟨1, "-USD".toList⟩⟩).trace
        = [Event.getData [] "USD".toList, Event.createRequest [] "USD".toList,
            Event.Send ⟨1, botWrongCommandMessage, []⟩] := by
  decide

/-- C3, amended: the parse step looks at the number of tokens only. A text with
exactly one `-` passes, whether or not its tokens are empty, and `getData` is
called with the two upper-cased tokens; any other text is rejected with the
wrong-command message and `getData` is not called. -/
theorem listenCommands_accepts_iff_one_separator (env : Env) (w : World) (chat : Int)
    (text : Str) (hup : ∀ c : Char, 0x7F < c.toNat → env.upper c ≠ '-') :
    (text.count '-' = 1 →
        ∃ symbol convert, Split (ToUpper env.upper text) '-' = [symbol, convert]
          ∧ w.trace ++ [Event.getData symbol convert]
              <+: (listenCommandsStep env w ⟨some ⟨chat, text⟩⟩).trace)
      ∧ (text.count '-' ≠ 1 →
        listenCommandsStep env w ⟨some ⟨chat, text⟩⟩
          = Send w ⟨chat, botWrongCommandMessage, []⟩) := by
  have hlen : (Split (ToUpper env.upper text) '-').length = text.count '-' + 1 := by
    rw [Split_length, ToUpper_count_dash env.upper hup]
  constructor
  · intro h1
    rw [h1] at hlen
    match hs : Split (ToUpper env.upper text) '-', hlen with
    | [symbol, convert], _ =>
      exact ⟨symbol, convert, rfl, listenCommandsStep_accept env w chat text symbol convert hs⟩
  · intro h1
    apply listenCommandsStep_reject
    rw [hlen]
    omega

/-- The text `BTC-` passes the parse step with an empty currency. -/
theorem listenCommands_accepts_iff_one_separator_witness :
    "BTC-".toList.count '-' = 1
      ∧ ∃ symbol convert, Split (ToUpper demoEnv.upper "BTC-".toList) '-' = [symbol, convert]
          ∧ (World.main 0).trace ++ [Event.getData symbol convert]
              <+: (listenCommandsStep demoEnv (World.main 0) ⟨some ⟨1, "BTC-".toList⟩⟩).trace :=
  ⟨by decide, (listenCommands_accepts_iff_one_separator demoEnv (World.main 0) 1 "BTC-".toList
      demoEnv_upper).1 (by decide)⟩

/-- C4: the reply to the failing command `BTCUSD` is the constant of the
program, which spells `commmand` with three `m` and so is not the text
`You have entered wrong command. Please enter command like BTC-USD.`. -/
theorem listenCommands_reply_misspelt :
    (listenCommandsStep demoEnv (World.main 0) ⟨some ⟨1, "BTCUSD".toList⟩⟩).trace
        = [Event.Send ⟨1,
            "You have entered wrong commmand. Please enter command like BTC-USD.".toList, []⟩]
      ∧ botWrongCommandMessage
        ≠ "You have entered wrong command. Please enter command like BTC-USD.".toList := by
  decide

/-! ## Fetching and decoding -/

/-- C6: when the key is absent from the cache and the fetch or the decoding
fails, `getData` returns an error and the cache is exactly what it was. -/
theorem getData_failure_keeps_cache (env : Env) (w : World) (symbol convert : Str)
    (habsent : w.cac.items.lookup (symbol ++ convert) = none)
    (hfail : (∃ err, (createRequest env w symbol convert).1 = .error err)
      ∨ ∃ jsonData err, (createRequest env w symbol convert).1 = .ok jsonData
          ∧ parseJsonToData env jsonData symbol convert = .error err) :
    (∃ err, (getData env w symbol convert).1 = .error err)
      ∧ (getData env w symbol convert).2.cac = w.cac := by
  have hget : w.cac.Get (symbol ++ convert) w.now = none := by
    simp only [Cache.Get, habsent]
  have hcac := createRequest_cac env w symbol convert
  simp only [getData, hget]
  rcases hfail with ⟨err, he⟩ | ⟨jsonData, err, hj, hp⟩
  · split
    · exact ⟨⟨_, rfl⟩, by next hr => rw [hr] at hcac; exact hcac⟩
    · next hr =>
      rw [hr] at he
      cases he
  · split
    · next hr =>
      rw [hr] at hj
      cases hj
    · next hr =>
      rw [hr] at hj hcac
      cases hj
      rw [hp]
      exact ⟨⟨_, rfl⟩, hcac⟩

/-- A request for DOGE fails in the transport: `getData` fails and the cache of
`main` stays empty. -/
theorem getData_failure_keeps_cache_witness :
    (∃ err, (getData demoEnv (World.main 0) "DOGE".toList "USD".toList).1 = .error err)
      ∧ (getData demoEnv (World.main 0) "DOGE".toList "USD".toList).2.cac = (World.main 0).cac :=
  getData_failure_keeps_cache demoEnv (World.main 0) "DOGE".toList "USD".toList (by decide)
    (Or.inl ⟨"dial tcp: connection refused".toList, by decide⟩)

/-- C7, as stated, fails: the provider answers the request for ETH with status
500, and `createRequest` returns the body of that response as a payload, not an
error. -/
theorem createRequest_status_500_is_payload :
    (demoEnv.Do 0 "ETH".toList "USD".toList).result = .ok ⟨500, [2]⟩
      ∧ (createRequest demoEnv (World.main 0) "ETH".toList "USD".toList).1 = .ok [2] := by
  decide

/-- C7, amended: `createRequest` fails exactly when the transport fails; a
response is returned as a payload, its body, whatever its status code. -/
theorem createRequest_error_iff_transport (env : Env) (w : World) (symbol convert : Str) :
    ((∃ err, (createRequest env w symbol convert).1 = .error err)
        ↔ ∃ err, (env.Do w.now symbol convert).result = .error err)
      ∧ ∀ resp, (env.Do w.now symbol convert).result = .ok resp →
          (createRequest env w symbol convert).1 = .ok resp.Body := by
  simp only [createRequest]
  cases (env.Do w.now symbol convert).result with
  | error err => simp
  | ok resp => simp

/-- A response with status 500 gives its body. -/
theorem createRequest_error_iff_transport_witness :
    (demoEnv.Do (World.main 0).now "ETH".toList "USD".toList).result = .ok ⟨500, [2]⟩
      ∧ (createRequest demoEnv (World.main 0) "ETH".toList "USD".toList).1
        = .ok (⟨500, [2]⟩ : Response).Body :=
  ⟨by decide, (createRequest_error_iff_transport demoEnv (World.main 0) "ETH".toList
    "USD".toList).2 ⟨500, [2]⟩ (by decide)⟩

/-- C8: a payload that decodes never makes `parseJsonToData` fail. When the
asset is there and the currency is missing from its quotes, the result holds
the asset and the zero price; when the asset is missing, the result holds the
zero asset and the zero price; in both cases its label is the requested
currency. -/
theorem parseJsonToData_missing_entries (env : Env) (jsonData : Bytes) (symbol convert : Str)
    (result : jsonResult) (hparse : env.Unmarshal jsonData = .ok result) :
    (∃ q, parseJsonToData env jsonData symbol convert = .ok q ∧ q.Convert = convert)
      ∧ (∀ d, result.Data.lookup symbol = some d → d.Quote.lookup convert = none →
          parseJsonToData env jsonData symbol convert = .ok ⟨d, price.zero, convert⟩)
      ∧ (result.Data.lookup symbol = none →
          parseJsonToData env jsonData symbol convert = .ok ⟨data.zero, price.zero, convert⟩)
      ∧ price.zero = ⟨⟨false, 0, 0⟩, ⟨false, 0, 0⟩, ⟨false, 0, 0⟩, ⟨false, 0, 0⟩, ⟨false, 0, 0⟩,
          Time.zero⟩
      ∧ data.zero = ⟨[], [], ⟨false, 0, 0⟩, ⟨false, 0, 0⟩, ⟨false, 0, 0⟩, []⟩ := by
  simp only [parseJsonToData, hparse]
  refine ⟨⟨_, rfl, rfl⟩, ?_, ?_, rfl, rfl⟩
  · intro d hd hq
    simp only [mapIndex, hd, hq]
  · intro hd
    simp only [mapIndex, hd]
    rfl

/-- The payload of the concrete environment holds BTC with a USD quote only: a
lookup of BTC in EUR gives the asset with the zero price, a lookup of ETH gives
the zero asset. -/
theorem parseJsonToData_missing_entries_witness :
    demoEnv.Unmarshal [1] = .ok demoResult
      ∧ parseJsonToData demoEnv [1] "BTC".toList "EUR".toList
        = .ok ⟨demoQuote.Data, price.zero, "EUR".toList⟩
      ∧ parseJsonToData demoEnv [1] "ETH".toList "USD".toList
        = .ok ⟨data.zero, price.zero, "USD".toList⟩ :=
  ⟨by decide,
    (parseJsonToData_missing_entries demoEnv [1] "BTC".toList "EUR".toList demoResult
      (by decide)).2.1 demoQuote.Data (by decide) (by decide),
    (parseJsonToData_missing_entries demoEnv [1] "ETH".toList "USD".toList demoResult
      (by decide)).2.2.1 (by decide)⟩

/-! ## The cache -/

theorem lookup_filter_ne {V : Type} (l : List (Str × V)) (k k1 : Str) (h : k ≠ k1) :
    (l.filter (fun p => !(p.1 == k1))).lookup k = l.lookup k := by
  induction l with
  | nil => rfl
  | cons p ps ih =>
    obtain ⟨a, b⟩ := p
    by_cases ha : a = k1
    · subst ha
      have hk : (k == a) = false := by simpa using h
      simp [List.filter_cons, List.lookup_cons, hk, ih]
    · have hf : (!(a == k1)) = true := by simpa using ha
      rw [List.filter_cons]
      simp only [hf, if_true, List.lookup_cons, ih]

theorem lookup_set_ne (c : Cache) (k k1 : Str) (x : cryptoData) (d now : Int) (h : k ≠ k1) :
    (c.set k1 x d now).items.lookup k = c.items.lookup k := by
  have hk : (k == k1) = false := by simpa using h
  simp only [Cache.set, List.lookup_cons, hk]
  exact lookup_filter_ne c.items k k1 h

theorem lookup_Add_ne (c : Cache) (k k1 : Str) (x : cryptoData) (d now : Int) (h : k ≠ k1) :
    (c.Add k1 x d now).items.lookup k = c.items.lookup k := by
  unfold Cache.Add
  split
  · rfl
  · exact lookup_set_ne c k k1 x d now h

theorem lookup_DeleteExpired (c : Cache) (k : Str) (it : Item) (now : Int)
    (h : c.items.lookup k = some it) (hlive : it.Expired now = false) :
    (c.DeleteExpired now).items.lookup k = some it := by
  simp only [Cache.DeleteExpired]
  generalize c.items = l at h
  induction l with
  | nil => cases h
  | cons p ps ih =>
    obtain ⟨a, b⟩ := p
    rw [List.lookup_cons] at h
    by_cases hk : (k == a) = true
    · rw [hk] at h
      cases h
      rw [List.filter_cons]
      simp only [hlive, Bool.not_false, if_true, List.lookup_cons, hk]
    · have hk1 : (k == a) = false := by simpa using hk
      rw [hk1] at h
      rw [List.filter_cons]
      split_ifs
      · rw [List.lookup_cons, hk1]
        exact ih h
      · exact ih h

theorem Get_of_lookup (c : Cache) (k : Str) (q : cryptoData) (e now : Int)
    (h : c.items.lookup k = some ⟨q, e⟩) (hnow : now ≤ e) : c.Get k now = some q := by
  have hlive : (⟨q, e⟩ : Item).Expired now = false := by
    simp only [Item.Expired, Bool.and_eq_false_iff, decide_eq_false_iff_not]
    right
    omega
  simp only [Cache.Get, h, hlive]
  rfl

theorem Get_none_mono (c : Cache) (k : Str) (now now1 : Int) (hle : now ≤ now1)
    (h : c.Get k now = none) : c.Get k now1 = none := by
  simp only [Cache.Get] at h ⊢
  cases hl : c.items.lookup k with
  | none => rfl
  | some it =>
    rw [hl] at h
    simp only at h ⊢
    split_ifs at h with he
    have he1 : it.Expired now1 = true := by
      simp only [Item.Expired, Bool.and_eq_true, decide_eq_true_eq] at he ⊢
      exact ⟨he.1, by omega⟩
    rw [if_pos he1]

/-! ## The clock never runs backwards -/

theorem getData_now_le (env : Env) (w : World) (symbol convert : Str) :
    w.now ≤ (getData env w symbol convert).2.now := by
  have hc := createRequest_now env w symbol convert
  simp only [getData]
  split
  · exact le_refl _
  · split
    · next hr =>
      rw [hr] at hc
      simp only at hc ⊢
      omega
    · next hr =>
      rw [hr] at hc
      simp only at hc
      split <;> simp only <;> omega

theorem listenCommandsStep_now_le (env : Env) (w : World) (u : Update) :
    w.now ≤ (listenCommandsStep env w u).now := by
  obtain ⟨m⟩ := u
  cases m with
  | none => exact le_refl _
  | some m =>
    simp only [listenCommandsStep]
    split_ifs
    · exact le_refl _
    · have := getData_now_le env
        { w with trace := w.trace ++ [Event.getData
            ((Split (ToUpper env.upper m.Text) '-').getD 0 [])
            ((Split (ToUpper env.upper m.Text) '-').getD 1 [])] }
        ((Split (ToUpper env.upper m.Text) '-').getD 0 [])
        ((Split (ToUpper env.upper m.Text) '-').getD 1 [])
      split
      · next hr =>
        rw [hr] at this
        exact this
      · next hr =>
        rw [hr] at this
        exact this

theorem act_now_le (env : Env) (w : World) (a : Action) : w.now ≤ (w.act env a).now := by
  cases a with
  | tick d =>
    simp only [World.act]
    omega
  | janitor => exact le_refl _
  | update u => exact listenCommandsStep_now_le env w u

theorem run_now_le (env : Env) (w : World) (acts : List Action) :
    w.now ≤ (w.run env acts).now := by
  induction acts generalizing w with
  | nil => exact le_refl _
  | cons a as ih =>
    exact le_trans (act_now_le env w a) (ih (w.act env a))

/-! ## A live entry survives until it expires -/

theorem getData_keeps_entry (env : Env) (w : World) (symbol convert k : Str)
    (q : cryptoData) (e : Int) (h : w.cac.items.lookup k = some ⟨q, e⟩) (hnow : w.now ≤ e) :
    (getData env w symbol convert).2.cac.items.lookup k = some ⟨q, e⟩ := by
  have hc := createRequest_cac env w symbol convert
  by_cases hk : k = symbol ++ convert
  · subst hk
    simp only [getData, Get_of_lookup w.cac _ q e w.now h hnow]
    exact h
  · simp only [getData]
    split
    · exact h
    · split
      · next hr =>
        rw [hr] at hc
        simp only at hc ⊢
        rw [hc]
        exact h
      · next hr =>
        rw [hr] at hc
        simp only at hc
        split
        · simp only
          rw [hc]
          exact h
        · simp only
          rw [lookup_Add_ne _ _ _ _ _ _ hk, hc]
          exact h

theorem listenCommandsStep_keeps_entry (env : Env) (w : World) (u : Update) (k : Str)
    (q : cryptoData) (e : Int) (h : w.cac.items.lookup k = some ⟨q, e⟩) (hnow : w.now ≤ e) :
    (listenCommandsStep env w u).cac.items.lookup k = some ⟨q, e⟩ := by
  obtain ⟨m⟩ := u
  cases m with
  | none => exact h
  | some m =>
    simp only [listenCommandsStep]
    split_ifs
    · exact h
    · have := getData_keeps_entry env
        { w with trace := w.trace ++ [Event.getData
            ((Split (ToUpper env.upper m.Text) '-').getD 0 [])
            ((Split (ToUpper env.upper m.Text) '-').getD 1 [])] }
        ((Split (ToUpper env.upper m.Text) '-').getD 0 [])
        ((Split (ToUpper env.upper m.Text) '-').getD 1 []) k q e h hnow
      split
      · next hr =>
        rw [hr] at this
        exact this
      · next hr =>
        rw [hr] at this
        exact this

theorem act_keeps_entry (env : Env) (w : World) (a : Action) (k : Str)
    (q : cryptoData) (e : Int) (h : w.cac.items.lookup k = some ⟨q, e⟩) (hnow : w.now ≤ e) :
    (w.act env a).cac.items.lookup k = some ⟨q, e⟩ := by
  cases a with
  | tick d => exact h
  | janitor =>
    apply lookup_DeleteExpired _ _ _ _ h
    simp only [Item.Expired, Bool.and_eq_false_iff, decide_eq_false_iff_not]
    right
    omega
  | update u => exact listenCommandsStep_keeps_entry env w u k q e h hnow

theorem run_keeps_entry (env : Env) (w : World) (acts : List Action) (k : Str)
    (q : cryptoData) (e : Int) (h : w.cac.items.lookup k = some ⟨q, e⟩)
    (hnow : (w.run env acts).now ≤ e) :
    (w.run env acts).cac.items.lookup k = some ⟨q, e⟩ := by
  induction acts generalizing w with
  | nil => exact h
  | cons a as ih =>
    have h1 : (w.act env a).now ≤ e := le_trans (run_now_le env (w.act env a) as) hnow
    exact ih (w.act env a)
      (act_keeps_entry env w a k q e h (le_trans (act_now_le env w a) h1)) hnow

theorem getData_hit (env : Env) (w : World) (symbol convert : Str) (q : cryptoData)
    (h : w.cac.Get (symbol ++ convert) w.now = some q) :
    getData env w symbol convert = (.ok q, w) := by
  simp only [getData, h]

/-- After a miss whose fetch and decoding succeed, the entry is in the cache
with the expiration `now + defaultExpiration` of the time it was added. -/
theorem getData_miss_stores (env : Env) (w : World) (symbol convert : Str) (q : cryptoData)
    (hdef : 0 < w.cac.defaultExpiration)
    (hmiss : w.cac.Get (symbol ++ convert) w.now = none)
    (hfirst : (getData env w symbol convert).1 = .ok q) :
    (getData env w symbol convert).2.cac.items.lookup (symbol ++ convert)
        = some ⟨q, (getData env w symbol convert).2.now + w.cac.defaultExpiration⟩
      ∧ (getData env w symbol convert).2.trace
        = w.trace ++ [Event.createRequest symbol convert] := by
  have hc := createRequest_cac env w symbol convert
  have hn := createRequest_now env w symbol convert
  have ht := createRequest_trace env w symbol convert
  simp only [getData, hmiss] at hfirst ⊢
  split at hfirst
  · cases hfirst
  · next r jsonData w1 hr =>
    rw [hr] at hc hn ht
    simp only at hc hn ht
    split at hfirst
    · cases hfirst
    · next q1 hp =>
      simp only [Except.ok.injEq] at hfirst
      subst hfirst
      have hmiss1 : w1.cac.Get (symbol ++ convert) w1.now = none := by
        rw [hc]
        exact Get_none_mono w.cac _ w.now w1.now (by omega) hmiss
      refine ⟨?_, ht⟩
      rw [hc] at hmiss1
      simp only [Cache.Add, hmiss1, Cache.set, DefaultExpiration, if_true, List.lookup_cons,
        beq_self_eq_true, hc, hdef]

/-- C5: take a state whose cache has the default time to live of `main`, 30
seconds, and a call `getData(symbol, convert)` that misses the cache and
returns a quote. Whatever happens next (time passing, sweeps of the janitor,
other updates handled by the loop), a second `getData(symbol, convert)` made
less than 30 seconds after the first returns the same quote and leaves the
state untouched: its trace gains no `createRequest`, while the first call made
exactly one. -/
theorem getData_second_call_hits (env : Env) (w : World) (symbol convert : Str)
    (q : cryptoData) (acts : List Action)
    (hdef : w.cac.defaultExpiration = 30 * Second)
    (hmiss : w.cac.Get (symbol ++ convert) w.now = none)
    (hfirst : (getData env w symbol convert).1 = .ok q)
    (hlate : ((getData env w symbol convert).2.run env acts).now < w.now + 30 * Second) :
    getData env ((getData env w symbol convert).2.run env acts) symbol convert
        = (.ok q, (getData env w symbol convert).2.run env acts)
      ∧ (getData env w symbol convert).2.trace
        = w.trace ++ [Event.createRequest symbol convert] := by
  have hpos : 0 < w.cac.defaultExpiration := by
    rw [hdef]
    decide
  obtain ⟨hstore, htrace⟩ := getData_miss_stores env w symbol convert q hpos hmiss hfirst
  have h1 := getData_now_le env w symbol convert
  have hle : ((getData env w symbol convert).2.run env acts).now
      ≤ (getData env w symbol convert).2.now + w.cac.defaultExpiration := by
    rw [hdef]
    omega
  have hkeep := run_keeps_entry env _ acts _ q _ hstore hle
  exact ⟨getData_hit env _ symbol convert q (Get_of_lookup _ _ q _ _ hkeep hle), htrace⟩

/-- In the concrete environment: a first lookup of BTC in USD at time 0 fetches
the quote in 5 ns; after 10 seconds, a sweep, a lookup of ETH, 19 more seconds
and a lookup of BTC, the next lookup of BTC in USD returns the same quote
without a request. -/
theorem getData_second_call_hits_witness :
    getData demoEnv
        ((getData demoEnv (World.main 0) "BTC".toList "USD".toList).2.run demoEnv
          [.tick 10000000000, .janitor, .update ⟨some ⟨1, "eth-usd".toList⟩⟩,
            .tick 19000000000, .update ⟨some ⟨2, "btc-usd".toList⟩⟩])
        "BTC".toList "USD".toList
      = (.ok demoQuote,
        (getData demoEnv (World.main 0) "BTC".toList "USD".toList).2.run demoEnv
          [.tick 10000000000, .janitor, .update ⟨some ⟨1, "eth-usd".toList⟩⟩,
            .tick 19000000000, .update ⟨some ⟨2, "btc-usd".toList⟩⟩]) :=
  (getData_second_call_hits demoEnv (World.main 0) "BTC".toList "USD".toList demoQuote
    [.tick 10000000000, .janitor, .update ⟨some ⟨1, "eth-usd".toList⟩⟩,
      .tick 19000000000, .update ⟨some ⟨2, "btc-usd".toList⟩⟩]
    (by decide) (by decide) (by decide) (by decide)).1

/-! ## The characters of a rendered number -/

theorem digitChar_isDigit (n : Nat) : (digitChar n).isDigit = true := by
  unfold digitChar
  have h : n % 10 < 10 := Nat.mod_lt _ (by decide)
  generalize n % 10 = m at h
  interval_cases m <;> decide

theorem fixedDigits_isDigit (w n : Nat) : ∀ c ∈ fixedDigits w n, c.isDigit = true := by
  induction w generalizing n with
  | zero => simp [fixedDigits]
  | succ w ih =>
    intro c hc
    simp only [fixedDigits, List.mem_append, List.mem_singleton] at hc
    rcases hc with hc | rfl
    · exact ih _ c hc
    · exact digitChar_isDigit n

theorem fixedDigits_length (w n : Nat) : (fixedDigits w n).length = w := by
  induction w generalizing n with
  | zero => rfl
  | succ w ih => simp [fixedDigits, ih]

theorem intDigits_isDigit (fuel n : Nat) : ∀ c ∈ intDigits fuel n, c.isDigit = true := by
  induction fuel generalizing n with
  | zero =>
    intro c hc
    simp only [intDigits, List.mem_singleton] at hc
    subst hc
    exact digitChar_isDigit n
  | succ fuel ih =>
    intro c hc
    simp only [intDigits] at hc
    split_ifs at hc
    · simp only [List.mem_singleton] at hc
      subst hc
      exact digitChar_isDigit n
    · simp only [List.mem_append, List.mem_singleton] at hc
      rcases hc with hc | rfl
      · exact ih _ c hc
      · exact digitChar_isDigit n

theorem intDigits_length_pos (fuel n : Nat) : 0 < (intDigits fuel n).length := by
  cases fuel with
  | zero => simp [intDigits]
  | succ fuel =>
    simp only [intDigits]
    split_ifs <;> simp

/-- With enough fuel, `intDigits` has more than `k` digits exactly when the
number reaches `10 ^ k`. -/
theorem intDigits_length_lt (fuel n k : Nat) (hk : 1 ≤ k) (hf : n ≤ fuel) :
    k < (intDigits fuel n).length ↔ 10 ^ k ≤ n := by
  induction fuel generalizing n k with
  | zero =>
    have hn : n = 0 := by omega
    subst hn
    simp only [intDigits, List.length_singleton]
    have : 0 < 10 ^ k := pow_pos (by decide) k
    omega
  | succ fuel ih =>
    simp only [intDigits]
    split_ifs with h10
    · simp only [List.length_singleton]
      have : 10 ^ 1 ≤ 10 ^ k := Nat.pow_le_pow_right (by decide) hk
      omega
    · simp only [List.length_append, List.length_singleton]
      have hdiv : n / 10 ≤ fuel := by omega
      rcases Nat.eq_or_lt_of_le hk with h1 | h1
      · subst h1
        have := intDigits_length_pos fuel (n / 10)
        omega
      · have hk1 : 1 ≤ k - 1 := by omega
        have := ih (n / 10) (k - 1) hk1 hdiv
        have hpow : 10 ^ k = 10 ^ (k - 1) * 10 := by
          rw [← Nat.pow_succ]
          congr 1
          omega
        rw [hpow, ← Nat.le_div_iff_mul_le (by decide : 0 < 10)]
        omega

theorem mem_groupDigits (ds : Str) : ∀ c ∈ groupDigits ds, c ∈ ds ∨ c = ',' := by
  induction ds with
  | nil => simp [groupDigits]
  | cons d ds ih =>
    intro c hc
    simp only [groupDigits] at hc
    split_ifs at hc
    · simp only [List.mem_cons] at hc
      rcases hc with rfl | rfl | hc
      · simp
      · simp
      · rcases ih c hc with h | h
        · simp [h]
        · simp [h]
    · simp only [List.mem_cons] at hc
      rcases hc with rfl | hc
      · simp
      · rcases ih c hc with h | h
        · simp [h]
        · simp [h]

theorem comma_mem_groupDigits (ds : Str) (h : ',' ∉ ds) :
    ',' ∈ groupDigits ds ↔ 3 < ds.length := by
  induction ds with
  | nil => simp [groupDigits]
  | cons d ds ih =>
    have hd : ¬ ',' = d := fun e => h (by rw [e]; exact List.mem_cons_self _ _)
    have hds : ',' ∉ ds := fun e => h (List.mem_cons_of_mem _ e)
    have ih1 := ih hds
    simp only [groupDigits]
    split_ifs with hg
    · simp only [List.mem_cons, true_or, or_true, List.length_cons, true_iff]
      have : ds.length ≠ 0 := fun e => hg.2 (List.length_eq_zero.mp e)
      omega
    · simp only [List.mem_cons, hd, false_or, List.length_cons, ih1]
      have : ds.length = 0 ↔ ds = [] := List.length_eq_zero
      constructor
      · intro h3
        omega
      · intro h3
        by_contra h4
        apply hg
        constructor
        · omega
        · intro e
          rw [e] at h3
          simp at h3

theorem isDigit_ne (c d : Char) (hc : c.isDigit = true) (hd : d.isDigit = false) : c ≠ d := by
  intro e
  rw [e, hd] at hc
  cases hc

/-- The characters of a rendered float are digits, `,`, `-` and `.`. -/
theorem mem_fmtFloat (prec : Nat) (x : float64) :
    ∀ c ∈ fmtFloat prec x, c.isDigit = true ∨ c = ',' ∨ c = '-' ∨ c = '.' := by
  intro c hc
  simp only [fmtFloat, List.mem_append] at hc
  rcases hc with (hc | hc) | hc
  · split_ifs at hc
    · simp only [List.mem_singleton] at hc
      simp [hc]
    · simp at hc
  · rcases mem_groupDigits _ c hc with h | h
    · exact Or.inl (intDigits_isDigit _ _ c h)
    · simp [h]
  · split_ifs at hc
    · simp at hc
    · simp only [List.mem_cons] at hc
      rcases hc with rfl | hc
      · simp
      · exact Or.inl (fixedDigits_isDigit _ _ c hc)

theorem newline_not_mem_fmtFloat (prec : Nat) (x : float64) : '\n' ∉ fmtFloat prec x := by
  intro h
  rcases mem_fmtFloat prec x _ h with h | h | h | h <;> revert h <;> decide

theorem newline_not_mem_Format (t : Time) : '\n' ∉ t.Format := by
  intro h
  simp only [Time.Format, List.mem_append, List.mem_cons] at h
  rcases h with (h | h | h) | h | h
  · exact isDigit_ne _ '\n' (fixedDigits_isDigit _ _ _ h) (by decide) rfl
  · exact absurd h (by decide)
  · exact isDigit_ne _ '\n' (fixedDigits_isDigit _ _ _ h) (by decide) rfl
  · exact absurd h (by decide)
  · exact isDigit_ne _ '\n' (fixedDigits_isDigit _ _ _ h) (by decide) rfl

/-- A rendered float shows a `,` exactly when its rounded integer part has
more than three digits. -/
theorem comma_mem_fmtFloat (prec : Nat) (x : float64) :
    ',' ∈ fmtFloat prec x
      ↔ 1000 ≤ roundHalfEven (x.mant * 2 ^ x.exp.toNat * 10 ^ prec) (2 ^ (-x.exp).toNat)
          / 10 ^ prec := by
  have hnd : ∀ ds : Str, (∀ c ∈ ds, c.isDigit = true) → ',' ∉ ds := fun ds hds hmem =>
    isDigit_ne _ ',' (hds _ hmem) (by decide) rfl
  simp only [fmtFloat, List.mem_append]
  rw [comma_mem_groupDigits _ (hnd _ (intDigits_isDigit _ _)),
    intDigits_length_lt _ _ 3 (by decide) (le_refl _)]
  constructor
  · rintro ((h | h) | h)
    · split_ifs at h
      · exact absurd h (by decide)
      · simp at h
    · exact h
    · split_ifs at h
      · simp at h
      · simp only [List.mem_cons] at h
        rcases h with h | h
        · exact absurd h (by decide)
        · exact absurd h (hnd _ (fixedDigits_isDigit _ _))
  · intro h
    exact Or.inl (Or.inr h)

/-! ## The digits and the groups of a rendered number -/

theorem digitChar_toNat (n : Nat) : (digitChar n).toNat = 48 + n % 10 := by
  unfold digitChar
  have h : n % 10 < 10 := Nat.mod_lt _ (by decide)
  generalize n % 10 = m at h
  interval_cases m <;> decide

theorem digitsValue_snoc (ds : Str) (n : Nat) :
    digitsValue (ds ++ [digitChar n]) = 10 * digitsValue ds + n % 10 := by
  simp only [digitsValue, List.foldl_append, List.foldl_cons, List.foldl_nil, digitChar_toNat]
  omega

theorem digitsValue_digitChar (n : Nat) : digitsValue [digitChar n] = n % 10 := by
  have := digitsValue_snoc [] n
  simpa [digitsValue] using this

/-- With enough fuel, the digits of `intDigits` stand for the number. -/
theorem digitsValue_intDigits (fuel n : Nat) (hf : n ≤ fuel) :
    digitsValue (intDigits fuel n) = n := by
  induction fuel generalizing n with
  | zero =>
    have hn : n = 0 := by omega
    subst hn
    simp only [intDigits]
    rw [digitsValue_digitChar]
  | succ fuel ih =>
    simp only [intDigits]
    split_ifs with h10
    · rw [digitsValue_digitChar]
      omega
    · rw [digitsValue_snoc, ih (n / 10) (by omega)]
      omega

/-- The digits of `fixedDigits w n` stand for the last `w` digits of `n`. -/
theorem digitsValue_fixedDigits (w n : Nat) : digitsValue (fixedDigits w n) = n % 10 ^ w := by
  induction w generalizing n with
  | zero => simp [fixedDigits, digitsValue, Nat.mod_one]
  | succ w ih =>
    simp only [fixedDigits]
    rw [digitsValue_snoc, ih (n / 10), Nat.pow_succ, Nat.mul_comm (10 ^ w) 10, Nat.mod_mul]
    omega

theorem length_flatten_three (rest : List Str) (h : ∀ g ∈ rest, g.length = 3) :
    rest.flatten.length = 3 * rest.length := by
  induction rest with
  | nil => rfl
  | cons g gs ih =>
    have hg : g.length = 3 := h g (List.mem_cons_self _ _)
    have hgs := ih (fun x hx => h x (List.mem_cons_of_mem _ hx))
    simp only [List.flatten_cons, List.length_append, List.length_cons, hg, hgs]
    omega

/-- Grouping cuts the digits into a first group of one to three digits and
then groups of exactly three digits, each behind a `,`. -/
theorem groupDigits_groups (ds : Str) (hne : ds ≠ []) :
    ∃ (first : Str) (rest : List Str),
      groupDigits ds = first ++ (rest.map (fun g => ',' :: g)).flatten
        ∧ first ++ rest.flatten = ds
        ∧ 1 ≤ first.length ∧ first.length ≤ 3 ∧ ∀ g ∈ rest, g.length = 3 := by
  induction ds with
  | nil => exact absurd rfl hne
  | cons c cs ih =>
    by_cases hcs : cs = []
    · subst hcs
      exact ⟨[c], [], by simp [groupDigits], by simp, by simp, by simp, by simp⟩
    · obtain ⟨first, rest, hg, hj, h1, h3, hr⟩ := ih hcs
      have hlen : cs.length = first.length + 3 * rest.length := by
        rw [← hj, List.length_append, length_flatten_three rest hr]
      simp only [groupDigits]
      split_ifs with hcond
      · have hf3 : first.length = 3 := by omega
        refine ⟨[c], first :: rest, ?_, ?_, by simp, by simp, ?_⟩
        · rw [hg]
          simp
        · rw [← hj]
          simp
        · intro g hgm
          rcases List.mem_cons.mp hgm with rfl | hgm
          · exact hf3
          · exact hr g hgm
      · have hf2 : first.length ≤ 2 := by
          by_contra hcon
          apply hcond
          exact ⟨by omega, hcs⟩
        refine ⟨c :: first, rest, ?_, ?_, by simp, by simp; omega, hr⟩
        · rw [hg]
          simp
        · rw [← hj]
          simp

/-- A rendered float is a sign, the digits of the rounded integer part cut
into groups of three from the right with `,` between the groups, and the
fraction digits behind a `.`. -/
theorem fmtFloat_groups (prec : Nat) (x : float64) :
    ∃ (sign first : Str) (rest : List Str) (frac : Str),
      fmtFloat prec x
          = sign ++ first ++ (rest.map (fun g => ',' :: g)).flatten
            ++ (if prec = 0 then [] else '.' :: frac)
        ∧ sign = (if x.neg = true ∧ x.mant ≠ 0 then ['-'] else [])
        ∧ 1 ≤ first.length ∧ first.length ≤ 3 ∧ (∀ g ∈ rest, g.length = 3)
        ∧ (∀ c ∈ first ++ rest.flatten, c.isDigit = true)
        ∧ digitsValue (first ++ rest.flatten)
            = roundHalfEven (x.mant * 2 ^ x.exp.toNat * 10 ^ prec) (2 ^ (-x.exp).toNat)
                / 10 ^ prec
        ∧ (∀ k, 1 ≤ k → (k < (first ++ rest.flatten).length
            ↔ 10 ^ k ≤ roundHalfEven (x.mant * 2 ^ x.exp.toNat * 10 ^ prec)
                (2 ^ (-x.exp).toNat) / 10 ^ prec))
        ∧ frac.length = prec ∧ (∀ c ∈ frac, c.isDigit = true)
        ∧ digitsValue frac
            = roundHalfEven (x.mant * 2 ^ x.exp.toNat * 10 ^ prec) (2 ^ (-x.exp).toNat)
                % 10 ^ prec := by
  have hne : intDigits
      (roundHalfEven (x.mant * 2 ^ x.exp.toNat * 10 ^ prec) (2 ^ (-x.exp).toNat) / 10 ^ prec)
      (roundHalfEven (x.mant * 2 ^ x.exp.toNat * 10 ^ prec) (2 ^ (-x.exp).toNat) / 10 ^ prec)
        ≠ [] := by
    intro h
    have := intDigits_length_pos
      (roundHalfEven (x.mant * 2 ^ x.exp.toNat * 10 ^ prec) (2 ^ (-x.exp).toNat) / 10 ^ prec)
      (roundHalfEven (x.mant * 2 ^ x.exp.toNat * 10 ^ prec) (2 ^ (-x.exp).toNat) / 10 ^ prec)
    rw [h] at this
    exact absurd this (by decide)
  obtain ⟨first, rest, hg, hj, h1, h3, hr⟩ := groupDigits_groups _ hne
  refine ⟨_, first, rest,
    fixedDigits prec
      (roundHalfEven (x.mant * 2 ^ x.exp.toNat * 10 ^ prec) (2 ^ (-x.exp).toNat) % 10 ^ prec),
    ?_, rfl, h1, h3, hr, ?_, ?_, ?_, fixedDigits_length _ _, fixedDigits_isDigit _ _, ?_⟩
  · simp only [fmtFloat, hg, List.append_assoc]
  · rw [hj]
    exact intDigits_isDigit _ _
  · rw [hj]
    exact digitsValue_intDigits _ _ (le_refl _)
  · intro k hk
    rw [hj]
    exact intDigits_length_lt _ _ k hk (le_refl _)
  · rw [digitsValue_fixedDigits, Nat.mod_mod]

/-! ## The report -/

/-- The report, call by call: every number in it is a rendering by `fmtFloat`. -/
theorem generateMessage_eq (d : cryptoData) :
    generateMessage d
      = ("<b>".toList ++ d.Data.Symbol ++ " - ".toList ++ d.Convert ++ "</b>".toList) ++ '\n' ::
        ([] ++ '\n' ::
        (("<b>Max Supply: </b><i>".toList ++ fmtFloat 0 d.Data.MaxSupply ++ "</i> ".toList
            ++ d.Data.Symbol) ++ '\n' ::
        (("<b>Circulating Supply: </b><i>".toList ++ fmtFloat 0 d.Data.CirculatingSupply
            ++ "</i> ".toList ++ d.Data.Symbol) ++ '\n' ::
        (("<b>Total Supply: </b><i>".toList ++ fmtFloat 0 d.Data.TotalSupply ++ "</i> ".toList
            ++ d.Data.Symbol) ++ '\n' ::
        ([] ++ '\n' ::
        (("<b>Price: </b><i>".toList ++ fmtFloat 8 d.Price.Price ++ "</i> ".toList
            ++ d.Convert) ++ '\n' ::
        (("<b>Volume: </b><i>".toList ++ fmtFloat 3 d.Price.Volume ++ "</i> ".toList
            ++ d.Convert) ++ '\n' ::
        (("<b>1 Hour Change Percent: </b><i>".toList ++ fmtFloat 2 d.Price.ChangeHour
            ++ "%</i>".toList) ++ '\n' ::
        (("<b>Daily Change Percent: </b><i>".toList ++ fmtFloat 2 d.Price.ChangeDay
            ++ "%</i>".toList) ++ '\n' ::
        (("<b>Market Cap: </b><i>".toList ++ fmtFloat 3 d.Price.MarketCap ++ "</i> ".toList
            ++ d.Convert) ++ '\n' ::
        (("<b>Data Last Updated: </b><i>".toList ++ d.Price.LastUpdated.Format
            ++ "</i>".toList) ++ '\n' :: []))))))))))) := by
  simp [generateMessage, Sprintf]

/-- The pieces of the report between its newlines: twelve lines, each ended by
a newline, and nothing after the last one. -/
theorem generateMessage_Split (d : cryptoData) (hS : '\n' ∉ d.Data.Symbol)
    (hC : '\n' ∉ d.Convert) :
    Split (generateMessage d) '\n'
      = [ "<b>".toList ++ d.Data.Symbol ++ " - ".toList ++ d.Convert ++ "</b>".toList,
          [],
          "<b>Max Supply: </b><i>".toList ++ fmtFloat 0 d.Data.MaxSupply ++ "</i> ".toList
            ++ d.Data.Symbol,
          "<b>Circulating Supply: </b><i>".toList ++ fmtFloat 0 d.Data.CirculatingSupply
            ++ "</i> ".toList ++ d.Data.Symbol,
          "<b>Total Supply: </b><i>".toList ++ fmtFloat 0 d.Data.TotalSupply ++ "</i> ".toList
            ++ d.Data.Symbol,
          [],
          "<b>Price: </b><i>".toList ++ fmtFloat 8 d.Price.Price ++ "</i> ".toList ++ d.Convert,
          "<b>Volume: </b><i>".toList ++ fmtFloat 3 d.Price.Volume ++ "</i> ".toList
            ++ d.Convert,
          "<b>1 Hour Change Percent: </b><i>".toList ++ fmtFloat 2 d.Price.ChangeHour
            ++ "%</i>".toList,
          "<b>Daily Change Percent: </b><i>".toList ++ fmtFloat 2 d.Price.ChangeDay
            ++ "%</i>".toList,
          "<b>Market Cap: </b><i>".toList ++ fmtFloat 3 d.Price.MarketCap ++ "</i> ".toList
            ++ d.Convert,
          "<b>Data Last Updated: </b><i>".toList ++ d.Price.LastUpdated.Format
            ++ "</i>".toList,
          [] ] := by
  have hf := newline_not_mem_fmtFloat
  have e := generateMessage_eq d
  have ht := newline_not_mem_Format d.Price.LastUpdated
  rw [e]
  iterate 12 rw [Split_append_sep]
  · rfl
  all_goals first
    | decide
    | (simp only [List.mem_append, not_or]
       repeat' constructor
       all_goals first
         | assumption
         | exact hf _ _
         | exact ht
         | decide)

/-- A rendered float ends with `.` and exactly `prec` fraction digits when
`prec > 0` and has no `.` at all when `prec = 0`. -/
theorem fmtFloat_decimals (prec : Nat) (x : float64) :
    ∃ body frac, fmtFloat prec x = body ++ (if prec = 0 then [] else '.' :: frac)
      ∧ '.' ∉ body ∧ frac.length = prec ∧ ∀ c ∈ frac, c.isDigit = true := by
  refine ⟨_, _, rfl, ?_, fixedDigits_length _ _, fixedDigits_isDigit _ _⟩
  intro h
  simp only [List.mem_append] at h
  rcases h with h | h
  · split_ifs at h
    · exact absurd h (by decide)
    · simp at h
  · rcases mem_groupDigits _ _ h with h1 | h1
    · exact isDigit_ne _ '.' (intDigits_isDigit _ _ _ h1) (by decide) rfl
    · exact absurd h1 (by decide)

/-- A rendered time is `HH:MM:SS`: three pairs of digits with `:` between. -/
theorem Format_shape (t : Time) :
    ∃ hh mm ss : Str, t.Format = hh ++ ':' :: mm ++ ':' :: ss
      ∧ hh.length = 2 ∧ mm.length = 2 ∧ ss.length = 2
      ∧ ∀ c ∈ hh ++ mm ++ ss, c.isDigit = true := by
  refine ⟨_, _, _, rfl, fixedDigits_length _ _, fixedDigits_length _ _,
    fixedDigits_length _ _, ?_⟩
  intro c hc
  simp only [List.mem_append] at hc
  rcases hc with (hc | hc) | hc <;> exact fixedDigits_isDigit _ _ c hc

/-- C9, as stated, fails: the report of the concrete quote, whose symbol and
currency hold no newline, has twelve newline-terminated lines, not eleven. -/
theorem generateMessage_not_eleven_lines :
    '\n' ∉ demoQuote.Data.Symbol ∧ '\n' ∉ demoQuote.Convert
      ∧ (generateMessage demoQuote).count '\n' = 12
      ∧ (generateMessage demoQuote).getLast? = some '\n'
      ∧ (generateMessage demoQuote).count '\n' ≠ 11 := by
  decide

/-- C9, amended: for a quote whose symbol and currency hold no newline, the
report is exactly twelve newline-terminated lines, in this order: the header
in bold, a blank line, max supply, circulating supply and total supply (zero
decimals, then the asset symbol), a blank line, price (8 decimals, then the
currency), volume (3 decimals, then the currency), the 1-hour and the daily
change (2 decimals, then `%`), market cap (3 decimals, then the currency) and
the time of the last update as `HH:MM:SS`. -/
theorem generateMessage_twelve_lines (d : cryptoData) (hS : '\n' ∉ d.Data.Symbol)
    (hC : '\n' ∉ d.Convert) :
    Split (generateMessage d) '\n'
      = [ "<b>".toList ++ d.Data.Symbol ++ " - ".toList ++ d.Convert ++ "</b>".toList,
          [],
          "<b>Max Supply: </b><i>".toList ++ fmtFloat 0 d.Data.MaxSupply ++ "</i> ".toList
            ++ d.Data.Symbol,
          "<b>Circulating Supply: </b><i>".toList ++ fmtFloat 0 d.Data.CirculatingSupply
            ++ "</i> ".toList ++ d.Data.Symbol,
          "<b>Total Supply: </b><i>".toList ++ fmtFloat 0 d.Data.TotalSupply ++ "</i> ".toList
            ++ d.Data.Symbol,
          [],
          "<b>Price: </b><i>".toList ++ fmtFloat 8 d.Price.Price ++ "</i> ".toList ++ d.Convert,
          "<b>Volume: </b><i>".toList ++ fmtFloat 3 d.Price.Volume ++ "</i> ".toList
            ++ d.Convert,
          "<b>1 Hour Change Percent: </b><i>".toList ++ fmtFloat 2 d.Price.ChangeHour
            ++ "%</i>".toList,
          "<b>Daily Change Percent: </b><i>".toList ++ fmtFloat 2 d.Price.ChangeDay
            ++ "%</i>".toList,
          "<b>Market Cap: </b><i>".toList ++ fmtFloat 3 d.Price.MarketCap ++ "</i> ".toList
            ++ d.Convert,
          "<b>Data Last Updated: </b><i>".toList ++ d.Price.LastUpdated.Format
            ++ "</i>".toList,
          [] ]
      ∧ (generateMessage d).count '\n' = 12
      ∧ (∀ prec x, ∃ body frac, fmtFloat prec x = body ++ (if prec = 0 then [] else '.' :: frac)
          ∧ '.' ∉ body ∧ frac.length = prec ∧ ∀ c ∈ frac, c.isDigit = true)
      ∧ ∃ hh mm ss : Str, d.Price.LastUpdated.Format = hh ++ ':' :: mm ++ ':' :: ss
          ∧ hh.length = 2 ∧ mm.length = 2 ∧ ss.length = 2
          ∧ ∀ c ∈ hh ++ mm ++ ss, c.isDigit = true := by
  have h := generateMessage_Split d hS hC
  refine ⟨h, ?_, fmtFloat_decimals, Format_shape _⟩
  have hl := Split_length (generateMessage d) '\n'
  rw [h] at hl
  simp only [List.length_cons, List.length_nil] at hl
  omega

/-- The report of the concrete quote, line by line. -/
theorem generateMessage_twelve_lines_witness :
    (Split (generateMessage demoQuote) '\n').map String.mk
      = ["<b>BTC - USD</b>", "", "<b>Max Supply: </b><i>21,000,000</i> BTC",
          "<b>Circulating Supply: </b><i>19,000,000</i> BTC",
          "<b>Total Supply: </b><i>19,000,000</i> BTC", "",
          "<b>Price: </b><i>65,000.12345678</i> USD",
          "<b>Volume: </b><i>15,432,098.625</i> USD",
          "<b>1 Hour Change Percent: </b><i>-1.25%</i>",
          "<b>Daily Change Percent: </b><i>0.50%</i>",
          "<b>Market Cap: </b><i>1,234,567,890,123.000</i> USD",
          "<b>Data Last Updated: </b><i>23:13:20</i>", ""]
      ∧ (generateMessage demoQuote).count '\n' = 12 :=
  ⟨by decide, (generateMessage_twelve_lines demoQuote (by decide) (by decide)).2.1⟩

/-- C10, as stated, fails: for the price 65000.12345678 (the `float64`
`4466774471725321 / 2 ^ 36`) in USD the price line, its markup removed, reads
`Price: 65,000.12345678 USD`, with a thousands separator. -/
theorem generateMessage_price_has_separator :
    stripMarkup false ((Split (generateMessage demoQuote) '\n').getD 6 [])
        = "Price: 65,000.12345678 USD".toList
      ∧ stripMarkup false ((Split (generateMessage demoQuote) '\n').getD 6 [])
        ≠ "Price: 65000.12345678 USD".toList
      ∧ ',' ∈ fmtFloat 8 demoQuote.Price.Price := by
  decide

/-- C10, amended: every number of the report is rendered by the English
printer, which groups the integer digits in threes with `,`: a rendered number
is its sign, a first group of one to three digits, then groups of exactly
three digits each behind a `,` (together the decimal digits of the rounded
integer part, without leading zeros), then the fraction digits behind a `.`.
So a rendered number holds a `,` exactly when its rounded integer part is at
least 1000, and for the price 65000.12345678 in USD the price line of the
report is `<b>Price: </b><i>65,000.12345678</i> USD`, which without its markup
reads `Price: 65,000.12345678 USD`. -/
theorem generateMessage_groups_digits (d : cryptoData) :
    (generateMessage d
        = ("<b>".toList ++ d.Data.Symbol ++ " - ".toList ++ d.Convert ++ "</b>".toList) ++ '\n' ::
          ([] ++ '\n' ::
          (("<b>Max Supply: </b><i>".toList ++ fmtFloat 0 d.Data.MaxSupply ++ "</i> ".toList
              ++ d.Data.Symbol) ++ '\n' ::
          (("<b>Circulating Supply: </b><i>".toList ++ fmtFloat 0 d.Data.CirculatingSupply
              ++ "</i> ".toList ++ d.Data.Symbol) ++ '\n' ::
          (("<b>Total Supply: </b><i>".toList ++ fmtFloat 0 d.Data.TotalSupply ++ "</i> ".toList
              ++ d.Data.Symbol) ++ '\n' ::
          ([] ++ '\n' ::
          (("<b>Price: </b><i>".toList ++ fmtFloat 8 d.Price.Price ++ "</i> ".toList
              ++ d.Convert) ++ '\n' ::
          (("<b>Volume: </b><i>".toList ++ fmtFloat 3 d.Price.Volume ++ "</i> ".toList
              ++ d.Convert) ++ '\n' ::
          (("<b>1 Hour Change Percent: </b><i>".toList ++ fmtFloat 2 d.Price.ChangeHour
              ++ "%</i>".toList) ++ '\n' ::
          (("<b>Daily Change Percent: </b><i>".toList ++ fmtFloat 2 d.Price.ChangeDay
              ++ "%</i>".toList) ++ '\n' ::
          (("<b>Market Cap: </b><i>".toList ++ fmtFloat 3 d.Price.MarketCap ++ "</i> ".toList
              ++ d.Convert) ++ '\n' ::
          (("<b>Data Last Updated: </b><i>".toList ++ d.Price.LastUpdated.Format
              ++ "</i>".toList) ++ '\n' :: []))))))))))))
      ∧ (∀ (prec : Nat) (x : float64),
          ∃ (sign first : Str) (rest : List Str) (frac : Str),
            fmtFloat prec x
                = sign ++ first ++ (rest.map (fun g => ',' :: g)).flatten
                  ++ (if prec = 0 then [] else '.' :: frac)
              ∧ sign = (if x.neg = true ∧ x.mant ≠ 0 then ['-'] else [])
              ∧ 1 ≤ first.length ∧ first.length ≤ 3 ∧ (∀ g ∈ rest, g.length = 3)
              ∧ (∀ c ∈ first ++ rest.flatten, c.isDigit = true)
              ∧ digitsValue (first ++ rest.flatten)
                  = roundHalfEven (x.mant * 2 ^ x.exp.toNat * 10 ^ prec) (2 ^ (-x.exp).toNat)
                      / 10 ^ prec
              ∧ (∀ k, 1 ≤ k → (k < (first ++ rest.flatten).length
                  ↔ 10 ^ k ≤ roundHalfEven (x.mant * 2 ^ x.exp.toNat * 10 ^ prec)
                      (2 ^ (-x.exp).toNat) / 10 ^ prec))
              ∧ frac.length = prec ∧ (∀ c ∈ frac, c.isDigit = true)
              ∧ digitsValue frac
                  = roundHalfEven (x.mant * 2 ^ x.exp.toNat * 10 ^ prec) (2 ^ (-x.exp).toNat)
                      % 10 ^ prec)
      ∧ (∀ prec x, ',' ∈ fmtFloat prec x
          ↔ 1000 ≤ roundHalfEven (x.mant * 2 ^ x.exp.toNat * 10 ^ prec) (2 ^ (-x.exp).toNat)
              / 10 ^ prec)
      ∧ (d.Price.Price = ⟨false, 4466774471725321, -36⟩ → d.Convert = "USD".toList →
          ∃ pre post, generateMessage d
            = pre ++ '\n' :: "<b>Price: </b><i>65,000.12345678</i> USD".toList ++ '\n' :: post)
      ∧ stripMarkup false "<b>Price: </b><i>65,000.12345678</i> USD".toList
          = "Price: 65,000.12345678 USD".toList := by
  refine ⟨generateMessage_eq d, fmtFloat_groups, comma_mem_fmtFloat, ?_, by decide⟩
  intro hp hc
  have e := generateMessage_eq d
  have hl : "<b>Price: </b><i>".toList ++ fmtFloat 8 ⟨false, 4466774471725321, -36⟩
      ++ "</i> ".toList ++ "USD".toList
      = "<b>Price: </b><i>65,000.12345678</i> USD".toList := by decide
  rw [hp, hc, hl] at e
  refine ⟨("<b>".toList ++ d.Data.Symbol ++ " - ".toList ++ "USD".toList ++ "</b>".toList)
      ++ '\n' :: '\n' ::
      (("<b>Max Supply: </b><i>".toList ++ fmtFloat 0 d.Data.MaxSupply ++ "</i> ".toList
        ++ d.Data.Symbol) ++ '\n' ::
      (("<b>Circulating Supply: </b><i>".toList ++ fmtFloat 0 d.Data.CirculatingSupply
        ++ "</i> ".toList ++ d.Data.Symbol) ++ '\n' ::
      (("<b>Total Supply: </b><i>".toList ++ fmtFloat 0 d.Data.TotalSupply ++ "</i> ".toList
        ++ d.Data.Symbol) ++ ['\n']))),
    ("<b>Volume: </b><i>".toList ++ fmtFloat 3 d.Price.Volume ++ "</i> ".toList
        ++ "USD".toList) ++ '\n' ::
      (("<b>1 Hour Change Percent: </b><i>".toList ++ fmtFloat 2 d.Price.ChangeHour
        ++ "%</i>".toList) ++ '\n' ::
      (("<b>Daily Change Percent: </b><i>".toList ++ fmtFloat 2 d.Price.ChangeDay
        ++ "%</i>".toList) ++ '\n' ::
      (("<b>Market Cap: </b><i>".toList ++ fmtFloat 3 d.Price.MarketCap ++ "</i> ".toList
        ++ "USD".toList) ++ '\n' ::
      (("<b>Data Last Updated: </b><i>".toList ++ d.Price.LastUpdated.Format
        ++ "</i>".toList) ++ '\n' :: [])))), ?_⟩
  rw [e]
  simp only [List.append_assoc, List.cons_append, List.nil_append]

/-- The report of the concrete quote, whose price is 65000.12345678 in USD,
holds the price line with the separator. -/
theorem generateMessage_groups_digits_witness :
    ∃ pre post, generateMessage demoQuote
      = pre ++ '\n' :: "<b>Price: </b><i>65,000.12345678</i> USD".toList ++ '\n' :: post :=
  (generateMessage_groups_digits demoQuote).2.2.2.1 (by decide) (by decide)

end CryptoBot
